import Mathlib

/-!
# Verification of the EventBus publish/subscribe core

A shallow embedding of `include/core/EventBus.hpp`: the subscription
registry (`std::unordered_map<std::type_index, std::vector<std::shared_ptr<IEventWrapper>>>`),
the snapshot-based `publish` algorithm, and the RAII `Subscription` token.

Modelling choices:
* An event-type identity (`std::type_index`) is a `Nat`; the payload value is a `Nat`.
* A callback cell (`IEventWrapper`) is a record carrying its `HandlerId`; the
  callback body is abstracted by a behaviour environment `beh : Nat → List BusOp`
  giving, per handler id, the registry mutations the callback performs when run
  (this captures reentrant subscribe/unsubscribe from inside a callback).
* `HandlerId` is `size_t` in the source, so the `nextId++` in `subscribe` wraps
  modulo `2 ^ 64`; the model keeps the counter as a `Nat` reduced modulo
  `2 ^ 64` at every increment.
* Each cell additionally carries a ghost `serial` number standing for the
  identity of its heap allocation (`std::make_shared<EventWrapper<T>>`): two
  allocations are distinct objects, and a publish snapshot's `shared_ptr`
  copies keep the snapshotted objects alive, so no live object's identity is
  ever reused. This is modelled by an unbounded per-bus allocation counter
  `nextSerial`; `serial` is not data of the C++ wrapper, it is its object
  identity.
* The outer `unordered_map` is an association list with unique keys; the claims
  under study never depend on the outer map's iteration order.
* `std::weak_ptr<EventBus>` is modelled by a `Bool` field (`weakBus`: whether the
  weak reference is engaged) together with an external `alive : Bool` saying
  whether the registry still exists; `weak_ptr::lock()` succeeds iff both hold.
* `publish` is split exactly as the source: take the snapshot under the lock,
  then run the loop outside the lock; the trace of the loop records each
  invocation as a pair `(handler id, payload value)`.
-/

/-- A type-erased callback cell: `struct IEventWrapper { HandlerId id; ... }`.
`serial` is the ghost identity of the heap-allocated wrapper object (see the
header note); the C++ data of the cell is just `id` and the callback. -/
structure Cell where
  id : Nat
  serial : Nat
deriving DecidableEq, Repr

/-- The registry storage:
`unordered_map<type_index, vector<shared_ptr<IEventWrapper>>> subscribers`,
as an association list from type identity to bucket. -/
abbrev Registry := List (Nat × List Cell)

/-- `subscribers.find(t)`: look up the bucket for type `t`. -/
def findBucket : Registry → Nat → Option (List Cell)
  | [], _ => none
  | (k, l) :: rest, t => if k = t then some l else findBucket rest t

/-- `subscribers[typeIdx].push_back(wrapper)`: `operator[]` creates an empty
bucket when absent, then the cell is appended. -/
def insertCell : Registry → Nat → Cell → Registry
  | [], t, c => [(t, [c])]
  | (k, l) :: rest, t, c =>
      if k = t then (k, l ++ [c]) :: rest else (k, l) :: insertCell rest t c

/-- `EventBus::unsubscribe(type, id)` acting on the storage: find the bucket,
`std::erase_if` the cell with the matching id, and erase the map entry when the
bucket becomes empty. -/
def eraseCell : Registry → Nat → Nat → Registry
  | [], _, _ => []
  | (k, l) :: rest, t, i =>
      if k = t then
        let lnew := l.filter (fun c => c.id ≠ i)
        if lnew = [] then rest else (k, lnew) :: rest
      else (k, l) :: eraseCell rest t i

/-- The event bus: the registry, the id counter `HandlerId nextId = 1` (a
`size_t`, so arithmetic on it is modulo `2 ^ 64`), and the ghost allocation
counter for wrapper-object identities. -/
structure EventBus where
  subscribers : Registry
  nextId : Nat
  nextSerial : Nat
deriving DecidableEq, Repr

/-- A freshly constructed bus: empty map, `nextId = 1`, no allocations yet. -/
def EventBus.init : EventBus := ⟨[], 1, 0⟩

/-- The RAII subscription token (`class Subscription`). `weakBus` records
whether the weak reference to the bus is engaged (non-empty); `eventType` and
`handlerId` mirror the members of the same names. -/
structure Subscription where
  weakBus : Bool
  eventType : Nat
  handlerId : Nat
deriving DecidableEq, Repr

/-- `Subscription() = default`: empty weak reference, `typeid(void)` (modelled
as type 0), sentinel handler id 0. -/
def Subscription.init : Subscription := ⟨false, 0, 0⟩

/-- `EventBus::subscribe<T>`: `HandlerId id = nextId++` (the post-increment of
a `size_t`, wrapping modulo `2 ^ 64`), allocate a fresh wrapper cell tagged
with the id, append it to the bucket for the type, and return the token
`Subscription(weak_from_this(), typeIdx, id)`. -/
def EventBus.subscribe (b : EventBus) (t : Nat) : EventBus × Subscription :=
  let id := b.nextId
  (⟨insertCell b.subscribers t ⟨id, b.nextSerial⟩, (b.nextId + 1) % 2 ^ 64,
    b.nextSerial + 1⟩,
   ⟨true, t, id⟩)

/-- The wrapper cell a `subscribe` call on bus state `b` allocates: tagged with
the current `nextId`, identity the next unused allocation serial. -/
def EventBus.freshCell (b : EventBus) : Cell := ⟨b.nextId, b.nextSerial⟩

/-- `EventBus::unsubscribe(type, id)`. -/
def EventBus.unsubscribe (b : EventBus) (t i : Nat) : EventBus :=
  ⟨eraseCell b.subscribers t i, b.nextId, b.nextSerial⟩

/-- The bucket currently stored for type `t` (empty when absent). -/
def EventBus.bucket (b : EventBus) (t : Nat) : List Cell :=
  (findBucket b.subscribers t).getD []

/-- The snapshot taken by `publish<T>` under the shared lock: the current cell
list for the type. An absent or empty bucket makes `publish` return before
invoking anything, which coincides with an empty snapshot. -/
def EventBus.snapshot (b : EventBus) (t : Nat) : List Cell :=
  (findBucket b.subscribers t).getD []

/-- A registry mutation a callback may perform reentrantly while the publish
loop runs: subscribe to a type, or unsubscribe a handler id from a type. -/
inductive BusOp where
  | sub (t : Nat)
  | unsub (t : Nat) (i : Nat)
deriving DecidableEq, Repr

/-- Apply one mutation to the bus (the token returned by a reentrant subscribe
is held by the callback, not by the loop). -/
def EventBus.applyOp (b : EventBus) : BusOp → EventBus
  | .sub t => (b.subscribe t).1
  | .unsub t i => b.unsubscribe t i

/-- The publish loop, run outside the lock over the snapshot: each cell is
invoked once with the event value (recorded in the trace as `(id, v)`), and the
callback body may mutate the live bus (`beh c.id`) without affecting the
iteration, which walks the private snapshot. Returns the trace and the final
bus state. -/
def publishLoop (beh : Nat → List BusOp) (v : Nat) :
    List Cell → EventBus → List (Nat × Nat) × EventBus
  | [], b => ([], b)
  | c :: rest, b =>
      let b1 := (beh c.id).foldl EventBus.applyOp b
      let r := publishLoop beh v rest b1
      ((c.id, v) :: r.1, r.2)

/-- `EventBus::publish<T>(event)`: take the snapshot under the shared lock,
release the lock, then run the callbacks over the snapshot. -/
def EventBus.publish (b : EventBus) (beh : Nat → List BusOp) (t v : Nat) :
    List (Nat × Nat) × EventBus :=
  publishLoop beh v (b.snapshot t) b

/-- `Subscription::unsubscribe()` (the inline implementation): return if the
handler id is the sentinel 0; otherwise lock the weak bus pointer (succeeds iff
the reference is engaged and the registry is alive) and remove the handler,
then unconditionally reset `handlerId = 0` and the weak reference. Returns the
token's new state and the (possibly updated) registry. -/
def Subscription.release (s : Subscription) (alive : Bool) (reg : EventBus) :
    Subscription × EventBus :=
  if s.handlerId = 0 then (s, reg)
  else
    let regNew := if s.weakBus && alive then reg.unsubscribe s.eventType s.handlerId else reg
    (⟨false, s.eventType, 0⟩, regNew)

/-- `Subscription::moveFrom(other)`: copy the weak reference, type and id into
the destination, then invalidate the source (`handlerId = 0`,
`weakBus.reset()`; the type member is left as is). Returns (destination,
source) after the move. -/
def Subscription.moveFrom (dst src : Subscription) : Subscription × Subscription :=
  let _ := dst
  (⟨src.weakBus, src.eventType, src.handlerId⟩, ⟨false, src.eventType, 0⟩)

/-- The move constructor: members are default-initialized, then `moveFrom`. -/
def Subscription.moveCtor (src : Subscription) : Subscription × Subscription :=
  Subscription.moveFrom Subscription.init src

/-- The move assignment operator in the `this != &other` case: release the
destination first, then `moveFrom`. Returns (destination, source, registry). -/
def Subscription.moveAssign (dst src : Subscription) (alive : Bool) (reg : EventBus) :
    Subscription × Subscription × EventBus :=
  let r1 := dst.release alive reg
  let r2 := Subscription.moveFrom r1.1 src
  (r2.1, r2.2, r1.2)

/-- The move assignment operator in the self-assignment case
(`this == &other`): the guard makes it a no-op. -/
def Subscription.moveAssignSelf (s : Subscription) (reg : EventBus) :
    Subscription × EventBus :=
  (s, reg)

/-- Well-formedness of a bus, maintained by the implementation: no empty
bucket is stored, outer keys are unique, handler ids inside a bucket are
distinct, and every stored id is below the counter. -/
def EventBus.WF (b : EventBus) : Prop :=
  (∀ p ∈ b.subscribers, p.2 ≠ []) ∧
  (b.subscribers.map Prod.fst).Nodup ∧
  (∀ p ∈ b.subscribers, (p.2.map Cell.id).Nodup) ∧
  (∀ p ∈ b.subscribers, ∀ c ∈ p.2, c.id < b.nextId)

instance (b : EventBus) : Decidable b.WF := by
  unfold EventBus.WF; infer_instance

/-- Every stored wrapper object was allocated before the next allocation
serial — the object-identity invariant every reachable bus state satisfies. -/
def EventBus.serialsBelow (b : EventBus) : Prop :=
  ∀ p ∈ b.subscribers, ∀ c ∈ p.2, c.serial < b.nextSerial

instance (b : EventBus) : Decidable b.serialsBelow := by
  unfold EventBus.serialsBelow; infer_instance

/-! ## Infrastructure lemmas -/

/-- The trace of the publish loop is determined by the snapshot alone: each
snapshot cell is invoked once with the event value, in snapshot order,
regardless of the registry mutations the callbacks perform. -/
theorem publishLoop_trace (beh : Nat → List BusOp) (v : Nat) :
    ∀ (snap : List Cell) (b : EventBus),
      (publishLoop beh v snap b).1 = snap.map (fun c => (c.id, v)) := by
  intro snap
  induction snap with
  | nil => intro b; rfl
  | cons c rest ih =>
      intro b
      simp [publishLoop, ih]

theorem findBucket_insertCell_self (m : Registry) (t : Nat) (c : Cell) :
    findBucket (insertCell m t c) t = some ((findBucket m t).getD [] ++ [c]) := by
  induction m with
  | nil => simp [insertCell, findBucket]
  | cons p rest ih =>
      obtain ⟨k, l⟩ := p
      by_cases hk : k = t
      · simp [insertCell, findBucket, hk]
      · simp [insertCell, findBucket, hk, ih]

theorem findBucket_insertCell_ne (m : Registry) (t tn : Nat) (c : Cell) (h : tn ≠ t) :
    findBucket (insertCell m t c) tn = findBucket m tn := by
  induction m with
  | nil => simp [insertCell, findBucket, Ne.symm h]
  | cons p rest ih =>
      obtain ⟨k, l⟩ := p
      by_cases hk : k = t
      · simp [insertCell, findBucket, hk, Ne.symm h]
      · by_cases hk2 : k = tn
        · simp [insertCell, findBucket, hk, hk2, h]
        · simp [insertCell, findBucket, hk, hk2, ih]

theorem bucket_subscribe_self (b : EventBus) (t : Nat) :
    ((b.subscribe t).1).bucket t = b.bucket t ++ [b.freshCell] := by
  simp [EventBus.subscribe, EventBus.freshCell, EventBus.bucket,
    findBucket_insertCell_self]

theorem bucket_subscribe_ne (b : EventBus) (t tn : Nat) (h : tn ≠ t) :
    ((b.subscribe t).1).bucket tn = b.bucket tn := by
  simp [EventBus.subscribe, EventBus.bucket, findBucket_insertCell_ne _ _ _ _ h]

theorem nextId_subscribe (b : EventBus) (t : Nat) :
    ((b.subscribe t).1).nextId = (b.nextId + 1) % 2 ^ 64 := rfl

theorem nextSerial_subscribe (b : EventBus) (t : Nat) :
    ((b.subscribe t).1).nextSerial = b.nextSerial + 1 := rfl

theorem handlerId_subscribe (b : EventBus) (t : Nat) :
    ((b.subscribe t).2).handlerId = b.nextId := rfl

theorem nextId_unsubscribe (b : EventBus) (t i : Nat) :
    (b.unsubscribe t i).nextId = b.nextId := rfl

theorem nextSerial_unsubscribe (b : EventBus) (t i : Nat) :
    (b.unsubscribe t i).nextSerial = b.nextSerial := rfl

/-- A successful bucket lookup is a member of the registry list. -/
theorem findBucket_mem (m : Registry) (t : Nat) (l : List Cell)
    (h : findBucket m t = some l) : (t, l) ∈ m := by
  induction m with
  | nil => simp [findBucket] at h
  | cons p rest ih =>
      obtain ⟨k, kl⟩ := p
      by_cases hk : k = t
      · subst hk
        simp [findBucket] at h
        simp [h]
      · simp [findBucket, hk] at h
        exact List.mem_cons_of_mem _ (ih h)

/-- In a well-formed bus every stored handler id is below the counter. -/
theorem WF.id_lt_nextId {b : EventBus} (hwf : b.WF) {t : Nat} {c : Cell}
    (hc : c ∈ b.bucket t) : c.id < b.nextId := by
  obtain ⟨-, -, -, hlt⟩ := hwf
  unfold EventBus.bucket at hc
  cases hfb : findBucket b.subscribers t with
  | none => rw [hfb] at hc; simp at hc
  | some l =>
      rw [hfb] at hc; simp at hc
      exact hlt _ (findBucket_mem _ _ _ hfb) _ hc

/-- In a well-formed bus the ids of a bucket are distinct. -/
theorem WF.bucket_ids_nodup {b : EventBus} (hwf : b.WF) (t : Nat) :
    ((b.bucket t).map Cell.id).Nodup := by
  obtain ⟨-, -, hnd, -⟩ := hwf
  unfold EventBus.bucket
  cases hfb : findBucket b.subscribers t with
  | none => simp
  | some l => exact hnd _ (findBucket_mem _ _ _ hfb)

/-- In a bus satisfying the object-identity invariant, every stored wrapper
object's serial is below the next allocation serial. -/
theorem serialsBelow_lt {b : EventBus} (hs : b.serialsBelow) {t : Nat} {c : Cell}
    (hc : c ∈ b.bucket t) : c.serial < b.nextSerial := by
  unfold EventBus.bucket at hc
  cases hfb : findBucket b.subscribers t with
  | none => rw [hfb] at hc; simp at hc
  | some l =>
      rw [hfb] at hc; simp at hc
      exact hs _ (findBucket_mem _ _ _ hfb) _ hc

/-- No registry mutation ever decreases the allocation serial: object
identities are never reused. -/
theorem nextSerial_le_applyOp (b : EventBus) (op : BusOp) :
    b.nextSerial ≤ (b.applyOp op).nextSerial := by
  cases op with
  | sub t => simp [EventBus.applyOp, nextSerial_subscribe]
  | unsub t i => simp [EventBus.applyOp, nextSerial_unsubscribe]

/-- A sequence of registry mutations can only increase the allocation
serial. -/
theorem nextSerial_le_foldl (ops : List BusOp) :
    ∀ b : EventBus, b.nextSerial ≤ (ops.foldl EventBus.applyOp b).nextSerial := by
  induction ops with
  | nil => intro b; simp
  | cons op rest ih =>
      intro b
      exact le_trans (nextSerial_le_applyOp b op) (ih (b.applyOp op))

/-- A key absent from the outer map has no bucket. -/
theorem findBucket_eq_none (m : Registry) (t : Nat) (h : t ∉ m.map Prod.fst) :
    findBucket m t = none := by
  induction m with
  | nil => rfl
  | cons p rest ih =>
      obtain ⟨k, l⟩ := p
      rw [List.map_cons] at h
      have h1 : ¬(k = t) := by intro hk; subst hk; exact h (List.mem_cons_self _ _)
      have h2 : t ∉ List.map Prod.fst rest := fun hm => h (List.mem_cons_of_mem _ hm)
      simp [findBucket, h1, ih h2]

/-- Removing an id that is not stored for the type leaves the registry
untouched, provided no stored bucket is empty. -/
theorem eraseCell_of_not_mem (m : Registry) (t i : Nat) :
    (∀ p ∈ m, p.2 ≠ []) →
    i ∉ ((findBucket m t).getD []).map Cell.id →
    eraseCell m t i = m := by
  induction m with
  | nil => intro _ _; rfl
  | cons p rest ih =>
      obtain ⟨k, l⟩ := p
      intro hne hi
      by_cases hk : k = t
      · rw [show findBucket ((k, l) :: rest) t = some l by simp [findBucket, hk]] at hi
        simp at hi
        have hfl : l.filter (fun c => c.id ≠ i) = l :=
          List.filter_eq_self.mpr (fun a ha => by simpa using hi a ha)
        have hlne : l ≠ [] := hne (k, l) (List.mem_cons_self _ _)
        simp only [eraseCell, if_pos hk]
        show (if l.filter (fun c => c.id ≠ i) = [] then rest
              else (k, l.filter (fun c => c.id ≠ i)) :: rest) = (k, l) :: rest
        rw [hfl, if_neg hlne]
      · rw [show findBucket ((k, l) :: rest) t = findBucket rest t by
          simp [findBucket, hk]] at hi
        simp [eraseCell, hk, ih (fun p hp => hne p (List.mem_cons_of_mem _ hp)) hi]

/-- Removal never stores an empty bucket. -/
theorem eraseCell_nonempty (m : Registry) (t i : Nat) :
    (∀ p ∈ m, p.2 ≠ []) → ∀ p ∈ eraseCell m t i, p.2 ≠ [] := by
  induction m with
  | nil => intro _ p hp; simp [eraseCell] at hp
  | cons q rest ih =>
      obtain ⟨k, l⟩ := q
      intro hne p hp
      have hrest : ∀ p ∈ rest, p.2 ≠ [] := fun p hp => hne p (List.mem_cons_of_mem _ hp)
      by_cases hk : k = t
      · simp only [eraseCell, if_pos hk] at hp
        by_cases hnil : l.filter (fun c => c.id ≠ i) = []
        · simp only [hnil, if_pos rfl] at hp
          exact hrest p hp
        · simp only [hnil, if_neg hnil] at hp
          rcases List.mem_cons.mp hp with h | h
          · rw [h]; exact hnil
          · exact hrest p h
      · simp only [eraseCell, if_neg hk] at hp
        rcases List.mem_cons.mp hp with h | h
        · rw [h]; exact hne (k, l) (List.mem_cons_self _ _)
        · exact ih hrest p h

/-- Insertion never stores an empty bucket. -/
theorem insertCell_nonempty (m : Registry) (t : Nat) (c : Cell) :
    (∀ p ∈ m, p.2 ≠ []) → ∀ p ∈ insertCell m t c, p.2 ≠ [] := by
  induction m with
  | nil => intro _ p hp; simp [insertCell] at hp; simp [hp]
  | cons q rest ih =>
      obtain ⟨k, l⟩ := q
      intro hne p hp
      have hrest : ∀ p ∈ rest, p.2 ≠ [] := fun p hp => hne p (List.mem_cons_of_mem _ hp)
      by_cases hk : k = t
      · simp only [insertCell, if_pos hk] at hp
        rcases List.mem_cons.mp hp with h | h
        · rw [h]; simp
        · exact hrest p h
      · simp only [insertCell, if_neg hk] at hp
        rcases List.mem_cons.mp hp with h | h
        · rw [h]; exact hne (k, l) (List.mem_cons_self _ _)
        · exact ih hrest p h

/-- Every entry after an insertion is an old entry or the updated entry for the
inserted type (its old cells with the new cell appended). -/
theorem mem_insertCell (m : Registry) (t : Nat) (c : Cell) :
    ∀ p ∈ insertCell m t c,
      p ∈ m ∨ (p.1 = t ∧ p.2 = (findBucket m t).getD [] ++ [c]) := by
  induction m with
  | nil =>
      intro p hp
      simp [insertCell] at hp
      right
      simp [hp, findBucket]
  | cons q rest ih =>
      obtain ⟨k, l⟩ := q
      intro p hp
      by_cases hk : k = t
      · simp only [insertCell, if_pos hk] at hp
        rcases List.mem_cons.mp hp with h | h
        · right
          rw [h]
          simp [findBucket, hk]
        · exact Or.inl (List.mem_cons_of_mem _ h)
      · simp only [insertCell, if_neg hk] at hp
        rcases List.mem_cons.mp hp with h | h
        · exact Or.inl (h ▸ List.mem_cons_self _ _)
        · rcases ih p h with h2 | h2
          · exact Or.inl (List.mem_cons_of_mem _ h2)
          · right
            rwa [show findBucket ((k, l) :: rest) t = findBucket rest t by
              simp [findBucket, hk]]

/-- Every entry after a removal has the key of an old entry and a bucket that
is a sublist of that old entry's bucket. -/
theorem mem_eraseCell (m : Registry) (t i : Nat) :
    ∀ p ∈ eraseCell m t i, ∃ q ∈ m, q.1 = p.1 ∧ p.2.Sublist q.2 := by
  induction m with
  | nil => intro p hp; simp [eraseCell] at hp
  | cons q rest ih =>
      obtain ⟨k, l⟩ := q
      intro p hp
      by_cases hk : k = t
      · simp only [eraseCell, if_pos hk] at hp
        by_cases hnil : l.filter (fun c => c.id ≠ i) = []
        · simp only [hnil, if_pos rfl] at hp
          obtain ⟨q, hq, h1, h2⟩ := (by exact fun p hp => ⟨p, hp, rfl, List.Sublist.refl _⟩ :
            ∀ p ∈ rest, ∃ q ∈ rest, q.1 = p.1 ∧ p.2.Sublist q.2) p hp
          exact ⟨q, List.mem_cons_of_mem _ hq, h1, h2⟩
        · simp only [hnil, if_neg hnil] at hp
          rcases List.mem_cons.mp hp with h | h
          · refine ⟨(k, l), List.mem_cons_self _ _, ?_, ?_⟩
            · rw [h]
            · rw [h]; exact List.filter_sublist _
          · exact ⟨p, List.mem_cons_of_mem _ h, rfl, List.Sublist.refl _⟩
      · simp only [eraseCell, if_neg hk] at hp
        rcases List.mem_cons.mp hp with h | h
        · exact ⟨(k, l), List.mem_cons_self _ _, by rw [h], by rw [h]⟩
        · obtain ⟨q, hq, h1, h2⟩ := ih p h
          exact ⟨q, List.mem_cons_of_mem _ hq, h1, h2⟩

/-- Inserting for an already-present type leaves the key list unchanged. -/
theorem keys_insertCell_mem (m : Registry) (t : Nat) (c : Cell)
    (h : t ∈ m.map Prod.fst) :
    (insertCell m t c).map Prod.fst = m.map Prod.fst := by
  induction m with
  | nil => simp at h
  | cons q rest ih =>
      obtain ⟨k, l⟩ := q
      by_cases hk : k = t
      · simp [insertCell, hk]
      · rw [List.map_cons] at h
        rcases List.mem_cons.mp h with h1 | h1
      
        · exact absurd h1.symm hk
        · simp [insertCell, hk, ih h1]

/-- Inserting for a new type appends its key at the end. -/
theorem keys_insertCell_not_mem (m : Registry) (t : Nat) (c : Cell)
    (h : t ∉ m.map Prod.fst) :
    (insertCell m t c).map Prod.fst = m.map Prod.fst ++ [t] := by
  induction m with
  | nil => simp [insertCell]
  | cons q rest ih =>
      obtain ⟨k, l⟩ := q
      rw [List.map_cons] at h
      have h1 : ¬(k = t) := by intro hk; subst hk; exact h (List.mem_cons_self _ _)
      have h2 : t ∉ List.map Prod.fst rest := fun hm => h (List.mem_cons_of_mem _ hm)
      simp [insertCell, h1, ih h2]

/-- Insertion preserves uniqueness of the outer keys. -/
theorem keys_nodup_insertCell (m : Registry) (t : Nat) (c : Cell)
    (h : (m.map Prod.fst).Nodup) :
    ((insertCell m t c).map Prod.fst).Nodup := by
  by_cases ht : t ∈ m.map Prod.fst
  · rw [keys_insertCell_mem _ _ _ ht]; exact h
  · rw [keys_insertCell_not_mem _ _ _ ht]
    refine List.Nodup.append h (List.nodup_singleton t) ?_
    intro a ha hb
    rw [List.mem_singleton] at hb
    exact ht (hb ▸ ha)

/-- The keys after a removal form a sublist of the keys before it. -/
theorem keys_eraseCell_sublist (m : Registry) (t i : Nat) :
    ((eraseCell m t i).map Prod.fst).Sublist (m.map Prod.fst) := by
  induction m with
  | nil => simp [eraseCell]
  | cons q rest ih =>
      obtain ⟨k, l⟩ := q
      by_cases hk : k = t
      · simp only [eraseCell, if_pos hk]
        show (List.map Prod.fst
            (if l.filter (fun c => c.id ≠ i) = [] then rest
             else (k, l.filter (fun c => c.id ≠ i)) :: rest)).Sublist _
        by_cases hnil : l.filter (fun c => c.id ≠ i) = []
        · rw [if_pos hnil, List.map_cons]
          exact List.Sublist.cons _ (List.Sublist.refl _)
        · rw [if_neg hnil, List.map_cons, List.map_cons]
      · simp only [eraseCell, if_neg hk, List.map_cons]
        exact List.Sublist.cons₂ _ ih

/-- `unsubscribe` preserves well-formedness of the bus. -/
theorem WF_unsubscribe {b : EventBus} (hwf : b.WF) (t i : Nat) :
    (b.unsubscribe t i).WF := by
  obtain ⟨hne, hkeys, hnd, hlt⟩ := hwf
  have hsub : (b.unsubscribe t i).subscribers = eraseCell b.subscribers t i := rfl
  have hnext : (b.unsubscribe t i).nextId = b.nextId := rfl
  unfold EventBus.WF
  rw [hsub, hnext]
  refine ⟨eraseCell_nonempty _ _ _ hne,
    List.Nodup.sublist (keys_eraseCell_sublist _ _ _) hkeys, ?_, ?_⟩
  · intro p hp
    obtain ⟨q, hq, h1, h2⟩ := mem_eraseCell _ _ _ p hp
    exact List.Nodup.sublist (List.Sublist.map Cell.id h2) (hnd q hq)
  · intro p hp c hc
    obtain ⟨q, hq, h1, h2⟩ := mem_eraseCell _ _ _ p hp
    exact hlt q hq c (List.Sublist.subset h2 hc)

/-- A complete client-visible bus operation: a subscribe call, an unsubscribe
(token teardown), or a publish call (whose callbacks behave as `beh` says). -/
inductive FullOp where
  | sub (t : Nat)
  | unsub (t : Nat) (i : Nat)
  | pub (t : Nat) (v : Nat)
deriving DecidableEq, Repr

/-- Apply one client-visible operation to the bus. -/
def EventBus.applyFull (beh : Nat → List BusOp) (b : EventBus) : FullOp → EventBus
  | .sub t => (b.subscribe t).1
  | .unsub t i => b.unsubscribe t i
  | .pub t v => (b.publish beh t v).2

/-- Run a sequence of client-visible operations from a given bus state. -/
def EventBus.run (beh : Nat → List BusOp) (b : EventBus) (ops : List FullOp) : EventBus :=
  ops.foldl (EventBus.applyFull beh) b

/-- A freshly constructed bus is well-formed. -/
theorem WF_init : EventBus.init.WF := by
  refine ⟨?_, ?_, ?_, ?_⟩ <;> simp [EventBus.init]

/-- A freshly constructed bus satisfies the object-identity invariant. -/
theorem serialsBelow_init : EventBus.init.serialsBelow := by
  intro p hp
  simp [EventBus.init] at hp

/-- `subscribe` preserves the object-identity invariant: the fresh wrapper is
tagged with the serial that the call consumes. -/
theorem serialsBelow_subscribe {b : EventBus} (hs : b.serialsBelow) (t : Nat) :
    ((b.subscribe t).1).serialsBelow := by
  have hsub : ((b.subscribe t).1).subscribers =
      insertCell b.subscribers t ⟨b.nextId, b.nextSerial⟩ := rfl
  have hnext : ((b.subscribe t).1).nextSerial = b.nextSerial + 1 := rfl
  unfold EventBus.serialsBelow
  rw [hsub, hnext]
  intro p hp c hc
  rcases mem_insertCell _ _ _ p hp with h | ⟨h1, h2⟩
  · exact Nat.lt_succ_of_lt (hs p h c hc)
  · rw [h2] at hc
    rcases List.mem_append.mp hc with h3 | h3
    · cases hfb : findBucket b.subscribers t with
      | none => rw [hfb] at h3; simp at h3
      | some l =>
          rw [hfb] at h3
          simp only [Option.getD_some] at h3
          exact Nat.lt_succ_of_lt (hs _ (findBucket_mem _ _ _ hfb) c h3)
    · rw [List.mem_singleton] at h3
      rw [h3]
      exact Nat.lt_succ_self _

/-- `unsubscribe` preserves the object-identity invariant. -/
theorem serialsBelow_unsubscribe {b : EventBus} (hs : b.serialsBelow) (t i : Nat) :
    (b.unsubscribe t i).serialsBelow := by
  intro p hp c hc
  obtain ⟨q, hq, h1, h2⟩ := mem_eraseCell b.subscribers t i p hp
  exact hs q hq c (List.Sublist.subset h2 hc)

/-- Every single mutation preserves the object-identity invariant. -/
theorem serialsBelow_applyOp {b : EventBus} (hs : b.serialsBelow) (op : BusOp) :
    (b.applyOp op).serialsBelow := by
  cases op with
  | sub t => exact serialsBelow_subscribe hs t
  | unsub t i => exact serialsBelow_unsubscribe hs t i

/-- Any sequence of mutations preserves the object-identity invariant. -/
theorem serialsBelow_foldl (ops : List BusOp) :
    ∀ b : EventBus, b.serialsBelow → (ops.foldl EventBus.applyOp b).serialsBelow := by
  induction ops with
  | nil => intro b h; exact h
  | cons op rest ih => intro b h; exact ih _ (serialsBelow_applyOp h op)

/-- The publish loop preserves the object-identity invariant. -/
theorem serialsBelow_publishLoop (beh : Nat → List BusOp) (v : Nat) (snap : List Cell) :
    ∀ b : EventBus, b.serialsBelow → (publishLoop beh v snap b).2.serialsBelow := by
  induction snap with
  | nil => intro b h; exact h
  | cons c rest ih =>
      intro b h
      exact ih _ (serialsBelow_foldl _ _ h)

/-- Every client-visible operation preserves the object-identity invariant. -/
theorem serialsBelow_applyFull (beh : Nat → List BusOp) {b : EventBus}
    (hs : b.serialsBelow) (op : FullOp) : (EventBus.applyFull beh b op).serialsBelow := by
  cases op with
  | sub t => exact serialsBelow_subscribe hs t
  | unsub t i => exact serialsBelow_unsubscribe hs t i
  | pub t v => exact serialsBelow_publishLoop _ _ _ _ hs

/-- Any sequence of subscribe, unsubscribe and publish operations preserves
the object-identity invariant. -/
theorem serialsBelow_run (beh : Nat → List BusOp) (ops : List FullOp) :
    ∀ b : EventBus, b.serialsBelow → (EventBus.run beh b ops).serialsBelow := by
  induction ops with
  | nil => intro b h; exact h
  | cons op rest ih =>
      intro b h
      exact ih _ (serialsBelow_applyFull beh h op)

/-- Every single mutation keeps all stored buckets non-empty. -/
theorem noEmpty_applyOp {b : EventBus} (h : ∀ p ∈ b.subscribers, p.2 ≠ [])
    (op : BusOp) : ∀ p ∈ (b.applyOp op).subscribers, p.2 ≠ [] := by
  cases op with
  | sub t => exact insertCell_nonempty _ _ _ h
  | unsub t i => exact eraseCell_nonempty _ _ _ h

/-- Any sequence of mutations keeps all stored buckets non-empty. -/
theorem noEmpty_foldl (ops : List BusOp) :
    ∀ b : EventBus, (∀ p ∈ b.subscribers, p.2 ≠ []) →
      ∀ p ∈ (ops.foldl EventBus.applyOp b).subscribers, p.2 ≠ [] := by
  induction ops with
  | nil => intro b h; exact h
  | cons op rest ih => intro b h; exact ih _ (noEmpty_applyOp h op)

/-- The publish loop keeps all stored buckets non-empty. -/
theorem noEmpty_publishLoop (beh : Nat → List BusOp) (v : Nat) (snap : List Cell) :
    ∀ b : EventBus, (∀ p ∈ b.subscribers, p.2 ≠ []) →
      ∀ p ∈ (publishLoop beh v snap b).2.subscribers, p.2 ≠ [] := by
  induction snap with
  | nil => intro b h; exact h
  | cons c rest ih =>
      intro b h
      exact ih _ (noEmpty_foldl _ _ h)

/-- Every client-visible operation keeps all stored buckets non-empty. -/
theorem noEmpty_applyFull (beh : Nat → List BusOp) {b : EventBus}
    (h : ∀ p ∈ b.subscribers, p.2 ≠ []) (op : FullOp) :
    ∀ p ∈ (EventBus.applyFull beh b op).subscribers, p.2 ≠ [] := by
  cases op with
  | sub t => exact insertCell_nonempty _ _ _ h
  | unsub t i => exact eraseCell_nonempty _ _ _ h
  | pub t v => exact noEmpty_publishLoop _ _ _ _ h

/-- Any sequence of subscribe, unsubscribe and publish operations keeps all
stored buckets non-empty. -/
theorem noEmpty_run (beh : Nat → List BusOp) (ops : List FullOp) :
    ∀ b : EventBus, (∀ p ∈ b.subscribers, p.2 ≠ []) →
      ∀ p ∈ (EventBus.run beh b ops).subscribers, p.2 ≠ [] := by
  induction ops with
  | nil => intro b h; exact h
  | cons op rest ih =>
      intro b h
      exact ih _ (noEmpty_applyFull beh h op)

/-- The handler ids handed out, in order, by a sequence of mutations (each
`sub` is one `subscribe` call and hands out the id of the token it returns). -/
def assignedIds : EventBus → List BusOp → List Nat
  | _, [] => []
  | b, BusOp.sub t :: rest =>
      let r := b.subscribe t
      r.2.handlerId :: assignedIds r.1 rest
  | b, BusOp.unsub t i :: rest => assignedIds (b.unsubscribe t i) rest

/-- The number of subscribe calls in a mutation sequence. -/
def countSubs : List BusOp → Nat
  | [] => 0
  | BusOp.sub _ :: rest => countSubs rest + 1
  | BusOp.unsub _ _ :: rest => countSubs rest

/-- A sequence without subscribe calls hands out no ids. -/
theorem assignedIds_eq_nil_of_no_subs (ops : List BusOp) :
    countSubs ops = 0 → ∀ b : EventBus, assignedIds b ops = [] := by
  induction ops with
  | nil => intro _ b; rfl
  | cons op rest ih =>
      cases op with
      | sub t => intro h; simp [countSubs] at h
      | unsub t i =>
          intro h b
          exact ih (by simpa [countSubs] using h) _

/-- As long as the `size_t` id counter cannot wrap — the current counter plus
the number of upcoming subscribe calls stays within `2 ^ 64` — every id handed
out is at least the current counter and the ids are strictly increasing. -/
theorem assignedIds_bounded (ops : List BusOp) :
    ∀ b : EventBus, b.nextId + countSubs ops ≤ 2 ^ 64 →
      (∀ n ∈ assignedIds b ops, b.nextId ≤ n) ∧
      (assignedIds b ops).Pairwise (· < ·) := by
  induction ops with
  | nil =>
      intro b _
      exact ⟨by simp [assignedIds], by simp [assignedIds]⟩
  | cons op rest ih =>
      intro b hcount
      cases op with
      | unsub t i =>
          exact ih (b.unsubscribe t i)
            (by simpa [countSubs, nextId_unsubscribe] using hcount)
      | sub t =>
          rw [countSubs] at hcount
          by_cases hw : b.nextId + 1 < 2 ^ 64
          · have hid : ((b.subscribe t).1).nextId = b.nextId + 1 := by
              rw [nextId_subscribe, Nat.mod_eq_of_lt hw]
            have hrec := ih (b.subscribe t).1 (by rw [hid]; omega)
            constructor
            · intro n hn
              simp only [assignedIds, List.mem_cons] at hn
              rcases hn with h | h
              · rw [h]; exact Nat.le_refl _
              · have hge := hrec.1 n h
                rw [hid] at hge
                omega
            · simp only [assignedIds]
              rw [List.pairwise_cons]
              refine ⟨?_, hrec.2⟩
              intro n hn
              have hge := hrec.1 n hn
              rw [hid] at hge
              show b.nextId < n
              omega
          · have h2 : countSubs rest = 0 := by omega
            have hnil : assignedIds (b.subscribe t).1 rest =
                ([] : List Nat) := assignedIds_eq_nil_of_no_subs rest h2 _
            constructor
            · intro n hn
              simp only [assignedIds, hnil, List.mem_cons, List.not_mem_nil,
                or_false] at hn
              rw [hn]; exact Nat.le_refl _
            · simp only [assignedIds, hnil]
              exact List.pairwise_singleton _ _

/-- Over consecutive subscribe calls, the id handed out at step `k` is the
starting counter plus `k`, modulo `2 ^ 64` — the wrap of the `size_t`
post-increment. -/
theorem assignedIds_replicate_mem (t : Nat) :
    ∀ (n k : Nat) (b : EventBus), b.nextId < 2 ^ 64 → k < n →
      (b.nextId + k) % 2 ^ 64 ∈ assignedIds b (List.replicate n (BusOp.sub t)) := by
  intro n
  induction n with
  | zero => intro k b _ hk; exact absurd hk (Nat.not_lt_zero k)
  | succ m ih =>
      intro k b hb hk
      rw [List.replicate_succ]
      cases k with
      | zero =>
          simp only [assignedIds, List.mem_cons]
          left
          rw [Nat.add_zero, Nat.mod_eq_of_lt hb]
          rfl
      | succ k2 =>
          simp only [assignedIds, List.mem_cons]
          right
          have hb1 : ((b.subscribe t).1).nextId < 2 ^ 64 := by
            rw [nextId_subscribe]
            exact Nat.mod_lt _ (by norm_num)
          have hmem := ih k2 (b.subscribe t).1 hb1 (Nat.lt_of_succ_lt_succ hk)
          rw [nextId_subscribe, Nat.mod_add_mod] at hmem
          have harr : b.nextId + (k2 + 1) = b.nextId + 1 + k2 := by omega
          rw [harr]
          exact hmem

/-- The bus states at which each callback of the publish loop starts. -/
def publishLoopStates (beh : Nat → List BusOp) :
    List Cell → EventBus → List EventBus
  | [], _ => []
  | c :: rest, b => b :: publishLoopStates beh rest ((beh c.id).foldl EventBus.applyOp b)

/-- The allocation serial never decreases during the publish loop: every
state at which a callback runs has a serial at least as large as at snapshot
time, so a wrapper object created at or after the snapshot is distinct from
every snapshotted wrapper. -/
theorem nextSerial_le_loopStates (beh : Nat → List BusOp) (snap : List Cell) :
    ∀ b : EventBus, ∀ bm ∈ publishLoopStates beh snap b,
      b.nextSerial ≤ bm.nextSerial := by
  induction snap with
  | nil => intro b bm h; simp [publishLoopStates] at h
  | cons c rest ih =>
      intro b bm h
      simp only [publishLoopStates, List.mem_cons] at h
      rcases h with h | h
      · rw [h]
      · exact le_trans (nextSerial_le_foldl _ b) (ih _ bm h)

/-- The snapshot a publish call takes is the current bucket. -/
theorem snapshot_eq_bucket (b : EventBus) (t : Nat) :
    b.snapshot t = b.bucket t := rfl

/-- Removing the single cell of a type erases the type's map entry. -/
theorem findBucket_erase_last (m : Registry) (t : Nat) (c : Cell) :
    (m.map Prod.fst).Nodup → findBucket m t = some [c] →
    findBucket (eraseCell m t c.id) t = none := by
  induction m with
  | nil => intro _ hfb; simp [findBucket] at hfb
  | cons q rest ih =>
      obtain ⟨k, l⟩ := q
      intro hkeys hfb
      rw [List.map_cons] at hkeys
      rw [List.nodup_cons] at hkeys
      by_cases hk : k = t
      · rw [show findBucket ((k, l) :: rest) t = some l by simp [findBucket, hk]] at hfb
        have hl : l = [c] := by simpa using hfb
        have hnil : l.filter (fun x => x.id ≠ c.id) = [] := by
          rw [hl]; simp
        simp only [eraseCell, if_pos hk, hnil, if_pos rfl]
        refine findBucket_eq_none rest t ?_
        intro hmem
        exact hkeys.1 (hk ▸ hmem)
      · rw [show findBucket ((k, l) :: rest) t = findBucket rest t by
          simp [findBucket, hk]] at hfb
        simp only [eraseCell, if_neg hk]
        rw [show findBucket ((k, l) :: eraseCell rest t c.id) t =
          findBucket (eraseCell rest t c.id) t by simp [findBucket, hk]]
        exact ih hkeys.2 hfb

/-- Indexing the two cells appended at the end of a list. -/
theorem getElem_append_pair {α : Type} (l : List α) (x y : α) :
    (l ++ [x, y])[l.length]? = some x ∧ (l ++ [x, y])[l.length + 1]? = some y := by
  constructor
  · rw [List.getElem?_append_right (Nat.le_refl _)]
    simp
  · rw [List.getElem?_append_right (Nat.le_add_right _ _)]
    simp

example : (EventBus.publish ⟨[(1, [⟨1, 0⟩, ⟨2, 1⟩])], 3, 2⟩ (fun _ => []) 1 9).1 =
    [(1, 9), (2, 9)] := by decide

example : (EventBus.publish ⟨[(1, [⟨1, 0⟩, ⟨2, 1⟩])], 3, 2⟩
    (fun _ => [BusOp.sub 1]) 1 9).1 = [(1, 9), (2, 9)] := by decide

example : (EventBus.publish ⟨[(1, [⟨1, 0⟩, ⟨2, 1⟩])], 3, 2⟩
    (fun _ => [BusOp.sub 1]) 1 9).2 =
    ⟨[(1, [⟨1, 0⟩, ⟨2, 1⟩, ⟨3, 2⟩, ⟨4, 3⟩])], 5, 4⟩ := by decide

example : (EventBus.unsubscribe ⟨[(1, [⟨1, 0⟩])], 2, 1⟩ 1 1) = ⟨[], 2, 1⟩ := by decide

example : (EventBus.unsubscribe ⟨[(1, [⟨1, 0⟩])], 2, 1⟩ 1 5) =
    ⟨[(1, [⟨1, 0⟩])], 2, 1⟩ := by decide

example : Subscription.release ⟨true, 1, 1⟩ true ⟨[(1, [⟨1, 0⟩])], 2, 1⟩ =
    (⟨false, 1, 0⟩, ⟨[], 2, 1⟩) := by decide

example : (EventBus.subscribe ⟨[], 2 ^ 64 - 1, 0⟩ 1).1.nextId = 0 := by decide

example : (EventBus.subscribe ⟨[], 2 ^ 64 - 1, 0⟩ 1).2.handlerId =
    2 ^ 64 - 1 := by decide

/-- Counting a pair with fixed second component in a paired-up list counts the
first component. -/
theorem count_pair_map (l : List Nat) (x v : Nat) :
    List.count (x, v) (l.map (fun i => (i, v))) = List.count x l := by
  induction l with
  | nil => rfl
  | cons a rest ih =>
      rw [List.map_cons, List.count_cons, List.count_cons, ih]
      by_cases hxa : x = a
      · subst hxa; simp
      · simp [hxa]

/-- In a duplicate-free list every member is counted exactly once. -/
theorem count_id_eq_one {l : List Nat} (h : l.Nodup) {x : Nat} (hx : x ∈ l) :
    List.count x l = 1 := by
  induction l with
  | nil => simp at hx
  | cons a rest ih =>
      rw [List.nodup_cons] at h
      rcases List.mem_cons.mp hx with h1 | h1
      · subst h1
        rw [List.count_cons_self, List.count_eq_zero_of_not_mem h.1]
      · by_cases hxa : x = a
        · subst hxa; exact absurd h1 h.1
        · rw [List.count_cons_of_ne hxa, ih h.2 h1]

/-! ## Claim theorems -/

/-- C1: for every event type, every payload value, and every callback cell
that is subscribed for the type (and not unsubscribed) when a publish call
starts, that publish call invokes the cell exactly once, with that value —
whatever the callbacks themselves do to the registry meanwhile. Moreover
every invocation the call performs passes exactly the published value. -/
theorem publish_invokes_each_subscriber_once
    (b : EventBus) (hwf : b.WF) (t v : Nat) (beh : Nat → List BusOp)
    (c : Cell) (hc : c ∈ b.bucket t) :
    ((b.publish beh t v).1).count (c.id, v) = 1 ∧
    ∀ p ∈ (b.publish beh t v).1, p.2 = v := by
  have htr : (b.publish beh t v).1 = (b.bucket t).map (fun c => (c.id, v)) := by
    unfold EventBus.publish
    rw [publishLoop_trace, snapshot_eq_bucket]
  constructor
  · have hinj : Function.Injective (fun i : Nat => (i, v)) := by
      intro a1 a2 h
      simpa using h
    have hmm : (b.bucket t).map (fun c => (c.id, v)) =
        ((b.bucket t).map Cell.id).map (fun i => (i, v)) := by
      rw [List.map_map]
      rfl
    rw [htr, hmm, count_pair_map]
    exact count_id_eq_one (WF.bucket_ids_nodup hwf t) (List.mem_map_of_mem _ hc)
  · intro p hp
    rw [htr] at hp
    rcases List.mem_map.mp hp with ⟨c2, hc2, h⟩
    rw [← h]

/-- Witness for C1 at a concrete bus: one subscriber with id 1 for type 2,
published value 5, with a callback that reentrantly subscribes. -/
theorem publish_invokes_each_subscriber_once_spot :
    ((EventBus.publish ⟨[(2, [⟨1, 0⟩])], 2, 1⟩ (fun _ => [BusOp.sub 2]) 2 5).1).count
      (1, 5) = 1 ∧
    ∀ p ∈ (EventBus.publish ⟨[(2, [⟨1, 0⟩])], 2, 1⟩ (fun _ => [BusOp.sub 2]) 2 5).1,
      p.2 = 5 :=
  publish_invokes_each_subscriber_once ⟨[(2, [⟨1, 0⟩])], 2, 1⟩ (by decide) 2 5
    (fun _ => [BusOp.sub 2]) ⟨1, 0⟩ (by decide)

/-- C2: a callback subscribed for a type after a publish call for that type
has taken its snapshot is not invoked by that call. The call invokes exactly
the snapshotted wrapper objects, in snapshot order; every bus state at which
one of the call's callbacks starts has an allocation serial at least the one
at snapshot time; and the wrapper object allocated by a subscribe performed
at any such state — in particular reentrantly from inside one of this very
call's callbacks — is appended to the live bucket but is a fresh object,
distinct from every snapshotted wrapper (the snapshot's shared-pointer copies
keep those objects alive, so their identities cannot be reused), hence it is
not invoked by this call. -/
theorem late_subscriber_not_invoked
    (b : EventBus) (hs : b.serialsBelow) (beh : Nat → List BusOp) (t v : Nat) :
    ((b.publish beh t v).1 = (b.snapshot t).map (fun c => (c.id, v))) ∧
    (∀ bm ∈ publishLoopStates beh (b.snapshot t) b, b.nextSerial ≤ bm.nextSerial) ∧
    (∀ b2 : EventBus, b.nextSerial ≤ b2.nextSerial → ∀ t2 : Nat,
      ((b2.subscribe t2).1).bucket t2 = b2.bucket t2 ++ [b2.freshCell] ∧
      b2.freshCell ∉ b.snapshot t) := by
  refine ⟨?_, nextSerial_le_loopStates beh _ b, ?_⟩
  · unfold EventBus.publish
    rw [publishLoop_trace]
  · intro b2 hb2 t2
    refine ⟨bucket_subscribe_self b2 t2, ?_⟩
    intro hmem
    rw [snapshot_eq_bucket] at hmem
    have hlt : (b2.freshCell).serial < b.nextSerial := serialsBelow_lt hs hmem
    have hser : (b2.freshCell).serial = b2.nextSerial := rfl
    omega

/-- Witness for C2: a bus with one subscriber (id 1) for type 1, a callback
that reentrantly subscribes to type 1 during the publish. -/
theorem late_subscriber_not_invoked_spot :
    ((EventBus.publish ⟨[(1, [⟨1, 0⟩])], 2, 1⟩ (fun _ => [BusOp.sub 1]) 1 7).1 =
      (EventBus.snapshot ⟨[(1, [⟨1, 0⟩])], 2, 1⟩ 1).map (fun c => (c.id, 7))) ∧
    (∀ bm ∈ publishLoopStates (fun _ => [BusOp.sub 1])
        (EventBus.snapshot ⟨[(1, [⟨1, 0⟩])], 2, 1⟩ 1) ⟨[(1, [⟨1, 0⟩])], 2, 1⟩,
      (1 : Nat) ≤ bm.nextSerial) ∧
    (∀ b2 : EventBus, (1 : Nat) ≤ b2.nextSerial → ∀ t2 : Nat,
      ((b2.subscribe t2).1).bucket t2 = b2.bucket t2 ++ [b2.freshCell] ∧
      b2.freshCell ∉ EventBus.snapshot ⟨[(1, [⟨1, 0⟩])], 2, 1⟩ 1) :=
  late_subscriber_not_invoked ⟨[(1, [⟨1, 0⟩])], 2, 1⟩ (by decide)
    (fun _ => [BusOp.sub 1]) 1 7

/-- C3: within one publish call the callbacks run in subscribe order as of the
snapshot (the trace is exactly the snapshot, in order, paired with the value);
in particular, after subscribing A and then B for a type, publishing one event
of that type invokes A at an earlier trace position than B. -/
theorem publish_in_subscribe_order
    (b : EventBus) (t v : Nat) (beh : Nat → List BusOp) :
    (∀ (b0 : EventBus) (t0 v0 : Nat),
      (b0.publish beh t0 v0).1 = (b0.snapshot t0).map (fun c => (c.id, v0))) ∧
    (∃ i j : Nat, i < j ∧
      ((((b.subscribe t).1.subscribe t).1.publish beh t v).1)[i]? =
        some ((b.subscribe t).2.handlerId, v) ∧
      ((((b.subscribe t).1.subscribe t).1.publish beh t v).1)[j]? =
        some (((b.subscribe t).1.subscribe t).2.handlerId, v)) := by
  have htr : ∀ (b0 : EventBus) (t0 v0 : Nat),
      (b0.publish beh t0 v0).1 = (b0.snapshot t0).map (fun c => (c.id, v0)) := by
    intro b0 t0 v0
    unfold EventBus.publish
    rw [publishLoop_trace]
  refine ⟨htr, ?_⟩
  have hbucket : ((b.subscribe t).1.subscribe t).1.bucket t =
      b.bucket t ++ [b.freshCell, (b.subscribe t).1.freshCell] := by
    rw [bucket_subscribe_self, bucket_subscribe_self]
    simp
  refine ⟨(b.bucket t).length, (b.bucket t).length + 1, Nat.lt_succ_self _, ?_, ?_⟩
  · rw [htr, snapshot_eq_bucket, hbucket, List.map_append, List.getElem?_append_right
      (by simp)]
    simp [EventBus.freshCell, handlerId_subscribe]
  · rw [htr, snapshot_eq_bucket, hbucket, List.map_append, List.getElem?_append_right
      (by simp)]
    simp [EventBus.freshCell, handlerId_subscribe, nextId_subscribe]

/-- C4, counterexample to the claim as stated: the id counter is a `size_t`
and wraps modulo `2 ^ 64`, so over the concrete sequence of `2 ^ 64 + 1`
subscribe calls on a fresh bus the sentinel id 0 is assigned to a real
subscription (by the `2 ^ 64`-th call) — refuting the claimed conjunction
(strictly increasing, never reused, 0 never assigned) at this input. -/
theorem handler_ids_wrap_counterexample :
    ¬((assignedIds EventBus.init
        (List.replicate (2 ^ 64 + 1) (BusOp.sub 0))).Pairwise (· < ·) ∧
      (assignedIds EventBus.init (List.replicate (2 ^ 64 + 1) (BusOp.sub 0))).Nodup ∧
      0 ∉ assignedIds EventBus.init (List.replicate (2 ^ 64 + 1) (BusOp.sub 0))) := by
  intro hcl
  apply hcl.2.2
  have hmem := assignedIds_replicate_mem 0 (2 ^ 64 + 1) (2 ^ 64 - 1) EventBus.init
    (by decide) (by omega)
  have hzero : (EventBus.init.nextId + (2 ^ 64 - 1)) % 2 ^ 64 = 0 := by
    have h1 : EventBus.init.nextId = 1 := rfl
    have h2 : (1 : Nat) + (2 ^ 64 - 1) = 2 ^ 64 := by omega
    rw [h1, h2, Nat.mod_self]
  rwa [hzero] at hmem

/-- C4 (amended): over any sequence of subscribe calls on one bus (with
arbitrary interleaved unsubscribes) that contains fewer than `2 ^ 64`
subscribe calls — the point at which the `size_t` counter wraps — the handler
ids handed out are strictly increasing, hence all distinct and never reused,
and the sentinel 0 is never assigned when the bus starts fresh
(`nextId = 1`). -/
theorem handler_ids_strictly_increasing (ops : List BusOp)
    (hops : countSubs ops < 2 ^ 64) :
    (assignedIds EventBus.init ops).Pairwise (· < ·) ∧
    (assignedIds EventBus.init ops).Nodup ∧
    0 ∉ assignedIds EventBus.init ops := by
  have hb := assignedIds_bounded ops EventBus.init (by
    have h1 : EventBus.init.nextId = 1 := rfl
    rw [h1]; omega)
  refine ⟨hb.2, ?_, ?_⟩
  · exact List.Pairwise.imp (fun h => Nat.ne_of_lt h) hb.2
  · intro h
    have h1 := hb.1 0 h
    have h2 : EventBus.init.nextId = 1 := rfl
    rw [h2] at h1
    exact Nat.not_succ_le_zero 0 h1

/-- Witness for C4 (amended) on a short concrete sequence: two subscribes
with an unsubscribe in between. -/
theorem handler_ids_strictly_increasing_spot :
    (assignedIds EventBus.init
      [BusOp.sub 1, BusOp.unsub 1 1, BusOp.sub 2]).Pairwise (· < ·) ∧
    (assignedIds EventBus.init [BusOp.sub 1, BusOp.unsub 1 1, BusOp.sub 2]).Nodup ∧
    0 ∉ assignedIds EventBus.init [BusOp.sub 1, BusOp.unsub 1 1, BusOp.sub 2] :=
  handler_ids_strictly_increasing [BusOp.sub 1, BusOp.unsub 1 1, BusOp.sub 2]
    (by decide)

/-- C5: unsubscription is idempotent. Removing an id that is not stored for
the type (never assigned, or already removed) leaves the whole registry
unchanged and is no error; a publish for that type can then never invoke that
id; releasing a token a second time changes neither the token nor the
registry; and releasing an already-invalidated token (sentinel id 0) performs
no registry action at all. -/
theorem unsubscribe_idempotent
    (b : EventBus) (hwf : b.WF) (t i : Nat)
    (hi : i ∉ (b.bucket t).map Cell.id) :
    b.unsubscribe t i = b ∧
    (∀ (w : Nat) (beh : Nat → List BusOp), (i, w) ∉ (b.publish beh t w).1) ∧
    (∀ (s : Subscription) (alive alive2 : Bool) (reg : EventBus),
      (s.release alive reg).1.release alive2 (s.release alive reg).2 =
        ((s.release alive reg).1, (s.release alive reg).2)) ∧
    (∀ (s : Subscription) (alive : Bool) (reg : EventBus),
      s.handlerId = 0 → s.release alive reg = (s, reg)) := by
  obtain ⟨m, n, ns⟩ := b
  obtain ⟨hne, hkeys, hnd, hlt⟩ := hwf
  refine ⟨?_, ?_, ?_, ?_⟩
  · show EventBus.mk (eraseCell m t i) n ns = EventBus.mk m n ns
    rw [eraseCell_of_not_mem m t i hne hi]
  · intro w beh hmem
    have htr : ((EventBus.mk m n ns).publish beh t w).1 =
        ((EventBus.mk m n ns).bucket t).map (fun c => (c.id, w)) := by
      unfold EventBus.publish
      rw [publishLoop_trace, snapshot_eq_bucket]
    rw [htr] at hmem
    rcases List.mem_map.mp hmem with ⟨c, hc, heq⟩
    have hcid : c.id = i := congrArg Prod.fst heq
    exact hi (hcid ▸ List.mem_map_of_mem Cell.id hc)
  · intro s alive alive2 reg
    by_cases h0 : s.handlerId = 0
    · simp [Subscription.release, h0]
    · simp [Subscription.release, h0]
  · intro s alive reg h0
    simp [Subscription.release, h0]

/-- Witness for C5: a bus holding id 1 for type 1; id 5 was never assigned. -/
theorem unsubscribe_idempotent_spot :
    EventBus.unsubscribe ⟨[(1, [⟨1, 0⟩])], 2, 1⟩ 1 5 = ⟨[(1, [⟨1, 0⟩])], 2, 1⟩ ∧
    (∀ (w : Nat) (beh : Nat → List BusOp),
      ((5 : Nat), w) ∉ (EventBus.publish ⟨[(1, [⟨1, 0⟩])], 2, 1⟩ beh 1 w).1) ∧
    (∀ (s : Subscription) (alive alive2 : Bool) (reg : EventBus),
      (s.release alive reg).1.release alive2 (s.release alive reg).2 =
        ((s.release alive reg).1, (s.release alive reg).2)) ∧
    (∀ (s : Subscription) (alive : Bool) (reg : EventBus),
      s.handlerId = 0 → s.release alive reg = (s, reg)) :=
  unsubscribe_idempotent ⟨[(1, [⟨1, 0⟩])], 2, 1⟩ (by decide) 1 5 (by decide)

/-- C6: the outer mapping never holds an empty bucket: after any sequence of
subscribe, publish and unsubscribe operations on a fresh bus, every stored
type has a non-empty cell list; and when the only remaining cell of a type is
removed — here by releasing the last token for that type, and equivalently by
the registry-level unsubscribe it performs — the map entry for that type is
erased. -/
theorem no_empty_buckets
    (beh : Nat → List BusOp) (ops : List FullOp)
    (b : EventBus) (hwf : b.WF) (t : Nat) (c : Cell)
    (hb : b.bucket t = [c]) (h0 : c.id ≠ 0) :
    (∀ p ∈ (EventBus.run beh EventBus.init ops).subscribers, p.2 ≠ []) ∧
    findBucket (b.unsubscribe t c.id).subscribers t = none ∧
    findBucket ((Subscription.release ⟨true, t, c.id⟩ true b).2).subscribers t = none := by
  have hfb : findBucket b.subscribers t = some [c] := by
    unfold EventBus.bucket at hb
    cases h : findBucket b.subscribers t with
    | none => rw [h] at hb; simp at hb
    | some l => rw [h] at hb; simp at hb; rw [hb]
  have herase : findBucket (eraseCell b.subscribers t c.id) t = none :=
    findBucket_erase_last b.subscribers t c hwf.2.1 hfb
  refine ⟨?_, herase, ?_⟩
  · intro p hp
    refine noEmpty_run beh ops EventBus.init ?_ p hp
    intro q hq
    simp [EventBus.init] at hq
  · have hrel : (Subscription.release ⟨true, t, c.id⟩ true b).2 = b.unsubscribe t c.id := by
      simp [Subscription.release, h0]
    rw [hrel]
    exact herase

/-- Witness for C6: the singleton registry for type 3 with id 2, plus a run
with a subscribe, a publish whose callback unsubscribes itself, and an
unsubscribe. -/
theorem no_empty_buckets_spot :
    (∀ p ∈ (EventBus.run (fun i => [BusOp.unsub 1 i])
        EventBus.init [FullOp.sub 1, FullOp.pub 1 9, FullOp.unsub 1 1]).subscribers,
      p.2 ≠ []) ∧
    findBucket (EventBus.unsubscribe ⟨[(3, [⟨2, 0⟩])], 3, 1⟩ 3 2).subscribers 3 = none ∧
    findBucket ((Subscription.release ⟨true, 3, 2⟩ true
      ⟨[(3, [⟨2, 0⟩])], 3, 1⟩).2).subscribers 3 = none :=
  no_empty_buckets (fun i => [BusOp.unsub 1 i]) [FullOp.sub 1, FullOp.pub 1 9, FullOp.unsub 1 1]
    ⟨[(3, [⟨2, 0⟩])], 3, 1⟩ (by decide) 3 ⟨2, 0⟩ (by decide) (by decide)

/-- C7: releasing (or destroying) a still-active token after the registry has
been destroyed — the weak reference no longer resolves — performs no removal
on any registry state, does not fail, and still moves the token
unconditionally to the released state: sentinel id 0 and a cleared weak
reference, with the event type member left in place. -/
theorem release_after_bus_destroyed
    (s : Subscription) (reg : EventBus) (hact : s.handlerId ≠ 0) :
    s.release false reg = (⟨false, s.eventType, 0⟩, reg) := by
  simp [Subscription.release, hact]

/-- Witness for C7 on a concrete active token and registry snapshot. -/
theorem release_after_bus_destroyed_spot :
    Subscription.release ⟨true, 3, 7⟩ false ⟨[(3, [⟨7, 0⟩])], 8, 1⟩ =
      (⟨false, 3, 0⟩, ⟨[(3, [⟨7, 0⟩])], 8, 1⟩) :=
  release_after_bus_destroyed ⟨true, 3, 7⟩ ⟨[(3, [⟨7, 0⟩])], 8, 1⟩ (by decide)

/-- C8: moving a token — by move construction, or the transfer step of move
assignment — copies the whole active state (weak bus reference, event type,
handler id) into the destination and leaves the source in the released state
(sentinel id 0, cleared weak reference). The registry is not an input of the
move at all, so no removal is performed, and a later release (destruction) of
the moved-from source is a complete no-op on any registry. -/
theorem move_transfers_and_invalidates (dst src : Subscription) :
    (Subscription.moveFrom dst src).1 = ⟨src.weakBus, src.eventType, src.handlerId⟩ ∧
    (Subscription.moveFrom dst src).2.handlerId = 0 ∧
    (Subscription.moveFrom dst src).2.weakBus = false ∧
    Subscription.moveCtor src = Subscription.moveFrom dst src ∧
    (∀ (alive : Bool) (reg : EventBus),
      (Subscription.moveFrom dst src).2.release alive reg =
        ((Subscription.moveFrom dst src).2, reg)) := by
  refine ⟨rfl, rfl, rfl, rfl, ?_⟩
  intro alive reg
  simp [Subscription.moveFrom, Subscription.release]

/-- C9: move assignment onto a destination that holds an active subscription
(non-sentinel id, engaged weak reference, registry alive) first releases the
destination — its cell is removed from the registry — and then takes the
source's state, leaving the source released; a self move assignment changes
neither the token nor the registry and removes nothing. -/
theorem move_assign_releases_destination
    (dst src : Subscription) (reg : EventBus)
    (hact : dst.handlerId ≠ 0) (href : dst.weakBus = true) :
    Subscription.moveAssign dst src true reg =
      (⟨src.weakBus, src.eventType, src.handlerId⟩,
       ⟨false, src.eventType, 0⟩,
       reg.unsubscribe dst.eventType dst.handlerId) ∧
    (∀ (s : Subscription) (reg2 : EventBus),
      Subscription.moveAssignSelf s reg2 = (s, reg2)) := by
  refine ⟨?_, fun s reg2 => rfl⟩
  simp [Subscription.moveAssign, Subscription.release, Subscription.moveFrom, hact, href]

/-- Witness for C9: destination token (type 4, id 6) active on a registry that
stores it; the source is an active token for type 2 with id 9. -/
theorem move_assign_releases_destination_spot :
    Subscription.moveAssign ⟨true, 4, 6⟩ ⟨true, 2, 9⟩ true ⟨[(4, [⟨6, 0⟩])], 10, 1⟩ =
      (⟨true, 2, 9⟩, ⟨false, 2, 0⟩,
        EventBus.unsubscribe ⟨[(4, [⟨6, 0⟩])], 10, 1⟩ 4 6) ∧
    (∀ (s : Subscription) (reg2 : EventBus),
      Subscription.moveAssignSelf s reg2 = (s, reg2)) :=
  move_assign_releases_destination ⟨true, 4, 6⟩ ⟨true, 2, 9⟩ ⟨[(4, [⟨6, 0⟩])], 10, 1⟩
    (by decide) (by decide)

/-- C10: a default-constructed token is already released: its handler id is
the sentinel 0 and its weak bus reference is disengaged, and releasing it
(explicitly or on destruction) leaves every registry untouched and the token
unchanged. -/
theorem default_token_released :
    Subscription.init.handlerId = 0 ∧
    Subscription.init.weakBus = false ∧
    ∀ (alive : Bool) (reg : EventBus),
      Subscription.init.release alive reg = (Subscription.init, reg) := by
  refine ⟨rfl, rfl, ?_⟩
  intro alive reg
  rfl
